import Mathlib

/-
Verification development for the LoopDuplication passes
(LoopDuplicationPass / LASBC / LoopConditionalLICM).

The definitions below are a shallow embedding of the transformation code in
src/llvm/lib/Transforms/LoopDuplication/LoopDuplicationPass.cpp (the file
concatenates LoopDuplicationPass.cpp, LoopConditionalLICM.cpp, LASBC.cpp and a
test).  Machine integers are modelled as Int with explicit two's-complement
wrapping; external analyses (ScalarEvolution, DominatorTree, AliasSetTracker)
are oracles passed in as parameters, exactly as the source only queries them.
-/

set_option maxRecDepth 4096

namespace LoopDup

/-! ## Two's-complement helpers -/

/-- Interpret an integer as a signed `w`-bit machine value
(two's-complement wraparound). -/
def wrapToSigned (w : Nat) (x : Int) : Int :=
  (x + 2 ^ (w - 1)) % 2 ^ w - 2 ^ (w - 1)

/-- Value of the C constant INT32_MAX used by the pass. -/
def INT32_MAX : Int := 2147483647

/-- Semantics of `ConstantInt::get(Ty, v)` for a `w`-bit integer type:
the value is truncated/wrapped into the signed `w`-bit range. -/
def intConst (w : Nat) (v : Int) : Int := wrapToSigned w v

/-! ## LASBC guard (LASBCPass::emitPreheaderBranch)

Embedding of the instruction sequence emitted at the original preheader,
evaluated on the runtime value `n` of the preheader value `N` (a `w`-bit
signed integer):
  - `NGreaterThanZero  = icmp sgt n, 0`
  - `MulInst           = mul n, (w/8)`            (wraps in `w` bits)
  - `NLesserThanINT32_MAX = icmp sle MulInst, INT32_MAX`
  - `AndInst           = and NGreaterThanZero NLesserThanINT32_MAX`
  - `BranchCondition   = icmp eq AndInst, 1`
-/

/-- Runtime value of the branch condition built by
`LASBCPass::emitPreheaderBranch` for an `N` of bit width `w` whose runtime
value is `n`: the conjunction `NGreaterThanZero && NLesserThanINT32_MAX`
compared for equality with `1`, where the product `MulInst` wraps in `w`
bits. -/
def lasbcGuard (w : Nat) (n : Int) : Bool :=
  (decide (intConst w 0 < n) &&
    decide (wrapToSigned w (n * intConst w ((w : Int) / 8)) ≤
      intConst w INT32_MAX)) == true

/-- The two destinations of the branch created in
`LoopDuplicationPass::transformCurrentLoop`: `TrueDest = LoopBBs[0]` is the
entry of the block set that `LASBCPass::optimizeDuplicatedLoop` rewrites to
use the widened (64-bit) induction variable, and `FalseDest = NewBBs[0]` is
the entry of the cloned copy, which keeps the original narrow 32-bit
induction variable and is left unmodified. -/
inductive LoopCopy where
  | widened
  | narrowClone
deriving DecidableEq, Repr

/-- Destination selected at runtime by the branch
`BranchInst::Create(TrueDest, FalseDest, BranchCondition)` emitted by
`LASBCPass::emitPreheaderBranch`. -/
def lasbcBranchTarget (w : Nat) (n : Int) : LoopCopy :=
  if lasbcGuard w n then LoopCopy.widened else LoopCopy.narrowClone

/-! ## LoopConditionalLICMPass::isCurrentLoopACandidate

The six candidacy checks are queries on external analyses; the record below
holds the oracle answers for one loop, and the function transcribes the
chain of early returns. -/

/-- Analysis-query results consumed by
`LoopConditionalLICMPass::isCurrentLoopACandidate` for one loop. -/
structure LoopQuery where
  /-- Result of `Loop::isLoopSimplifyForm` (preheader + dedicated exits). -/
  isLoopSimplifyForm : Bool
  /-- Result of `Loop::getInductionVariable(SE)`: the induction-variable
  PHI identified by ScalarEvolution, if any. -/
  inductionVariable : Option Nat
  /-- Result of `Loop::isSafeToClone`. -/
  isSafeToClone : Bool
  /-- Result of `Loop::getExitingBlock` (some iff exactly one exiting block). -/
  exitingBlock : Option Nat
  /-- Result of `Loop::getExitBlock` (some iff exactly one exit block). -/
  exitBlock : Option Nat
  /-- Result of `Loop::getSubLoops`. -/
  subLoops : List Nat
deriving DecidableEq, Repr

/-- Transcription of `LoopConditionalLICMPass::isCurrentLoopACandidate`. -/
def lclicmIsCurrentLoopACandidate (q : LoopQuery) : Bool :=
  if !q.isLoopSimplifyForm then false
  else if q.inductionVariable.isNone then false
  else if !q.isSafeToClone then false
  else if q.exitingBlock.isNone then false
  else if q.exitBlock.isNone then false
  else if !(q.subLoops.isEmpty) then false
  else true

/-! ## Mini-IR for LASBC candidacy (LASBCPass::isPHIAnAppropriateIV)

The function inspects: the PHI's type, its two incoming (value, block)
pairs, the use lists of the PHI / update instruction / zero-extension /
comparison, loop membership of blocks, and the loop preheader.  The IR
fragments below model exactly that data.  User lists are computed from the
operand lists, in the order instructions appear in the function. -/

/-- IR values: constants, function arguments, globals, or instruction
results (referred to by instruction id). -/
inductive Value where
  | constInt (v : Int)
  | arg (n : Nat)
  | global (n : Nat)
  | instr (id : Nat)
deriving DecidableEq, Repr

/-- Instruction payloads.  Only the shapes inspected by the pass are
distinguished; `indirectBr` is the terminator that makes a loop unsafe to
clone. -/
inductive InstrKind where
  | phi (incoming : List (Value × Nat))
  | binop (op0 op1 : Value)
  | zext (src : Value)
  | icmp (op0 op1 : Value)
  | getelementptr (ptr idx : Value)
  | load (ptr : Value)
  | store (val ptr : Value)
  | br (dest : Nat)
  | condBr (cond : Value) (dest0 dest1 : Nat)
  | indirectBr (dests : List Nat)
deriving DecidableEq, Repr

/-- One IR instruction: id, parent basic block, result type
(integer flag + bit width as reported by `DataLayout::getTypeSizeInBits`),
and the payload. -/
structure Instr where
  id : Nat
  block : Nat
  isIntTy : Bool
  bits : Nat
  kind : InstrKind
deriving DecidableEq, Repr

/-- Operand list of an instruction (the values it uses). -/
def Instr.operands (I : Instr) : List Value :=
  match I.kind with
  | .phi incoming => incoming.map Prod.fst
  | .binop op0 op1 => [op0, op1]
  | .zext src => [src]
  | .icmp op0 op1 => [op0, op1]
  | .getelementptr ptr idx => [ptr, idx]
  | .load ptr => [ptr]
  | .store val ptr => [val, ptr]
  | .br _ => []
  | .condBr cond _ _ => [cond]
  | .indirectBr _ => []

/-- A function body: the instruction list (in program order). -/
structure Func where
  instrs : List Instr
deriving DecidableEq, Repr

/-- Look an instruction up by id. -/
def Func.findInstr (F : Func) (id : Nat) : Option Instr :=
  F.instrs.find? (fun I => I.id == id)

/-- Resolve a `Value` to its defining instruction
(`dyn_cast<Instruction>` + lookup); `none` for constants, arguments,
globals and dangling ids. -/
def Func.asInstr (F : Func) (v : Value) : Option Instr :=
  match v with
  | .instr id => F.findInstr id
  | _ => none

/-- Users of a value: the instructions having it among their operands, in
program order.  `user_begin()/user_end()` iteration of the source is
modelled by this list. -/
def Func.usersOf (F : Func) (v : Value) : List Instr :=
  F.instrs.filter (fun I => I.operands.contains v)

/-- Loop structure as reported by LoopInfo: header, member blocks,
preheader (if any) and headers of the immediate sub-loops. -/
structure MiniLoop where
  header : Nat
  blocks : List Nat
  preheader : Option Nat
  subLoopHeaders : List Nat
deriving DecidableEq, Repr

/-- Transcription of `Loop::contains(BasicBlock*)`. -/
def MiniLoop.containsBlock (L : MiniLoop) (b : Nat) : Bool :=
  L.blocks.contains b

def isPhiInstr (I : Instr) : Bool :=
  match I.kind with | .phi _ => true | _ => false

def isZExtInstr (I : Instr) : Bool :=
  match I.kind with | .zext _ => true | _ => false

def isBranchInstr (I : Instr) : Bool :=
  match I.kind with | .br _ => true | .condBr _ _ _ => true | _ => false

def isIndirectBrInstr (I : Instr) : Bool :=
  match I.kind with | .indirectBr _ => true | _ => false

/-- State captured by `isPHIAnAppropriateIV` on success: the IV PHI, its
loop-carried update, the update's constant operand, the zero-extension, and
the instruction defining `N`. -/
structure CapturedIV where
  iv : Nat
  iterValue : Nat
  constOperand : Int
  extension : Nat
  n : Nat
deriving DecidableEq, Repr

/-- Scan over the users of the zero-extension (the source's
`for (ValueUser = ZExt->user_begin(); ...)` loop): an `ICmpInst` is accepted
only as the first one and only if it has a single user that is a branch; a
`GetElementPtrInst` sets `SawGEPInstruction`; anything else fails. -/
def scanZExtUsers (F : Func) :
    List Instr → Option Instr → Bool → Option (Option Instr × Bool)
  | [], cmp, saw => some (cmp, saw)
  | I :: rest, cmp, saw =>
    match I.kind with
    | .icmp _ _ =>
      if cmp.isNone
          && (F.usersOf (Value.instr I.id)).length == 1
          && (match (F.usersOf (Value.instr I.id)).getLast? with
              | some B => isBranchInstr B
              | none => false) then
        scanZExtUsers F rest (some I) saw
      else
        none
    | .getelementptr _ _ => scanZExtUsers F rest cmp true
    | _ => none

/-- Final segment of `isPHIAnAppropriateIV`: obtain `TheBranch` as
`Compare->user_back()`, require it to be a conditional branch that is inside
the loop and leaves it through one successor, and capture the candidate
state. -/
def ivCheckBranch (F : Func) (L : MiniLoop) (PN IterValue : Instr) (c : Int)
    (ZExt Compare NInst : Instr) : Option CapturedIV :=
  match (F.usersOf (Value.instr Compare.id)).getLast? with
  | some TheBranch =>
    match TheBranch.kind with
    | .condBr _ s0 s1 =>
      if !(L.containsBlock TheBranch.block) then none
      else if L.containsBlock s0 && L.containsBlock s1 then none
      else some ⟨PN.id, IterValue.id, c, ZExt.id, NInst.id⟩
    | _ => none
  | none => none

/-- Segment of `isPHIAnAppropriateIV` checking `N`: it must be an
instruction (`dyn_cast<Instruction>`), loop-invariant (for an instruction:
not contained in the loop), and defined in the loop preheader. -/
def ivCheckN (F : Func) (L : MiniLoop) (PN IterValue : Instr) (c : Int)
    (ZExt Compare : Instr) (nVal : Value) : Option CapturedIV :=
  match F.asInstr nVal with
  | some NInst =>
    if L.containsBlock NInst.block then none
    else if L.preheader != some NInst.block then none
    else ivCheckBranch F L PN IterValue c ZExt Compare NInst
  | none => none

/-- Segment of `isPHIAnAppropriateIV` processing the zero-extension's users
and selecting `N` from the comparison's operands.  Note the source compares
`Compare->getOperand(0)` against `ZExt->getOperand(0)` (the PHI), not
against the extension itself. -/
def ivCheckZExt (F : Func) (L : MiniLoop) (PN IterValue : Instr) (c : Int)
    (ZExt : Instr) : Option CapturedIV :=
  match scanZExtUsers F (F.usersOf (Value.instr ZExt.id)) none false with
  | some (some Compare, true) =>
    match Compare.kind, ZExt.kind with
    | .icmp cop0 cop1, .zext zsrc =>
      ivCheckN F L PN IterValue c ZExt Compare
        (if cop0 == zsrc then cop1 else cop0)
    | _, _ => none
  | _ => none

/-- Transcription of `LASBCPass::isPHIAnAppropriateIV`, returning the
captured candidate state instead of mutating members.  A header PHI in
loop-simplify form has exactly two incoming pairs; other shapes (undefined
behaviour in the source) are rejected. -/
def isPHIAnAppropriateIV (F : Func) (L : MiniLoop) (PN : Instr) :
    Option CapturedIV :=
  match PN.kind with
  | .phi incoming =>
    if !(PN.isIntTy && PN.bits == 32) then none
    else
      match incoming with
      | [inc0, inc1] =>
        match F.asInstr (if L.containsBlock inc0.2 then inc0.1 else inc1.1) with
        | some IterValue =>
          match IterValue.kind with
          | .binop op0 op1 =>
            if (F.usersOf (Value.instr IterValue.id)).length != 1 then none
            else
              match op1 with
              | .constInt c =>
                if op0 != Value.instr PN.id then none
                else
                  match F.usersOf (Value.instr PN.id) with
                  | [U1, U2] =>
                    match (if isZExtInstr U1 then some U1
                           else if isZExtInstr U2 then some U2
                           else none) with
                    | some ZExt => ivCheckZExt F L PN IterValue c ZExt
                    | none => none
                  | _ => none
              | _ => none
          | _ => none
        | none => none
      | _ => none
  | _ => none

/-- PHI nodes of the loop header, in program order
(`Header->phis()`). -/
def headerPhis (F : Func) (L : MiniLoop) : List Instr :=
  F.instrs.filter (fun I => I.block == L.header && isPhiInstr I)

/-- Transcription of `LASBCPass::isCurrentLoopACandidate`: scan the header
PHIs and accept on the first match. -/
def lasbcIsCurrentLoopACandidate (F : Func) (L : MiniLoop) : Bool :=
  (headerPhis F L).any (fun PN => (isPHIAnAppropriateIV F L PN).isSome)

/-! ### Structural loop queries

These model the LoopInfo and Loop queries that the spec's candidacy
description refers to (and that `LoopConditionalLICMPass` actually
performs), evaluated on the mini-IR. -/

/-- Successor blocks of a block (from its branch instructions). -/
def blockSuccs (F : Func) (b : Nat) : List Nat :=
  (F.instrs.filter (fun I => I.block == b)).foldr
    (fun I acc =>
      (match I.kind with
       | .br d => [d]
       | .condBr _ d0 d1 => [d0, d1]
       | .indirectBr ds => ds
       | _ => []) ++ acc) []

/-- Blocks inside the loop with a successor outside the loop. -/
def exitingBlocks (F : Func) (L : MiniLoop) : List Nat :=
  L.blocks.filter (fun b => (blockSuccs F b).any (fun s => !L.containsBlock s))

/-- Distinct blocks outside the loop reachable from inside in one edge. -/
def exitBlocks (F : Func) (L : MiniLoop) : List Nat :=
  (L.blocks.foldr
    (fun b acc => (blockSuccs F b).filter (fun s => !L.containsBlock s) ++ acc)
    []).dedup

/-- Transcription of `Loop::isSafeToClone` for this mini-IR: no block of the
loop contains an indirect branch. -/
def loopIsSafeToClone (F : Func) (L : MiniLoop) : Bool :=
  L.blocks.all (fun b =>
    (F.instrs.filter (fun I => I.block == b)).all
      (fun I => !isIndirectBrInstr I))

/-! ### Concrete LASBC loops

`lasbcExampleLoop init nOperand` is the loop of the LASBC regression test
(`a[i] = b[i] * c` shape), parametrized by the initial value of the
induction-variable PHI and by the first operand of the exit comparison.
Block 9 precedes the preheader (block 0); block 1 is the header, block 2 the
body, block 3 the exit block.  With `init = 0` and `nOperand = instr 100`
(the preheader load of `n`) it is exactly the accepted test shape. -/
def lasbcExampleLoop (init : Int) (nOperand : Value) : Func :=
  ⟨[⟨99, 9, true, 64, .load (.global 0)⟩,
    ⟨98, 9, false, 0, .br 0⟩,
    ⟨100, 0, true, 64, .load (.global 0)⟩,
    ⟨101, 0, false, 0, .br 1⟩,
    ⟨1, 1, true, 32, .phi [(.constInt init, 0), (.instr 4, 2)]⟩,
    ⟨2, 1, true, 64, .zext (.instr 1)⟩,
    ⟨3, 1, true, 1, .icmp nOperand (.instr 2)⟩,
    ⟨10, 1, false, 0, .condBr (.instr 3) 2 3⟩,
    ⟨5, 2, false, 64, .getelementptr (.global 1) (.instr 2)⟩,
    ⟨6, 2, false, 0, .store (.constInt 0) (.instr 5)⟩,
    ⟨4, 2, true, 32, .binop (.instr 1) (.constInt 1)⟩,
    ⟨7, 2, false, 0, .br 1⟩]⟩

/-- LoopInfo data for `lasbcExampleLoop`. -/
def lasbcExampleLoopInfo : MiniLoop := ⟨1, [1, 2], some 0, []⟩

/-- A loop whose header PHI matches the LASBC induction-variable pattern but
whose structure is degenerate: two exiting blocks (1 and 2), two exit
blocks (4 and 5), an indirect branch in block 3 (so the loop is not safe to
clone), and a sub-loop headed at block 6. -/
def lasbcStructLoop : Func :=
  ⟨[⟨100, 0, true, 64, .load (.global 0)⟩,
    ⟨101, 0, false, 0, .br 1⟩,
    ⟨1, 1, true, 32, .phi [(.constInt 0, 0), (.instr 4, 3)]⟩,
    ⟨2, 1, true, 64, .zext (.instr 1)⟩,
    ⟨3, 1, true, 1, .icmp (.instr 100) (.instr 2)⟩,
    ⟨10, 1, false, 0, .condBr (.instr 3) 2 4⟩,
    ⟨5, 2, false, 64, .getelementptr (.global 1) (.instr 2)⟩,
    ⟨6, 2, false, 0, .store (.constInt 0) (.instr 5)⟩,
    ⟨4, 2, true, 32, .binop (.instr 1) (.constInt 1)⟩,
    ⟨11, 2, false, 0, .condBr (.arg 0) 3 5⟩,
    ⟨12, 3, false, 0, .indirectBr [1, 6]⟩,
    ⟨13, 6, false, 0, .condBr (.arg 1) 6 1⟩]⟩

/-- LoopInfo data for `lasbcStructLoop`. -/
def lasbcStructLoopInfo : MiniLoop := ⟨1, [1, 2, 3, 6], some 0, [6]⟩

/-! ## Operational reading of the accepted LASBC loop shape (claim C1)

`lasbcExampleLoop init (instr 100)` is accepted by the candidacy check for
any `init`.  Its narrow (original) execution: the 32-bit PHI `i` starts at
`init`, each iteration compares `icmp sgt N, (zext i)` (continue while
`zext i < N`), the body addresses memory through the GEP at index `zext i`,
and the update adds the constant step modulo `2^32`.  The observable trace
is the list of 64-bit GEP indices, one per executed body iteration.

After the transformation, `LASBCPass::optimizeDuplicatedLoop` replaces the
widened copy's induction variable by a fresh 64-bit PHI seeded with the
constant 0 on the preheader edge (regardless of the narrow PHI's own
initial value), stepping by the sign-extended constant, and replaces every
use of the zero-extension by this PHI.  `widenedLoopTrace` is the
corresponding execution. -/

/-- Trace of GEP indices executed by the original narrow loop: 32-bit
induction variable `i` (represented as a natural below `2^32`), zero
extension to 64 bits, continue while `zext i <s N`. -/
def narrowLoopTrace (fuel : Nat) (i : Nat) (step : Nat) (nValue : Int) :
    Option (List Int) :=
  match fuel with
  | 0 => none
  | fuel + 1 =>
    if (i : Int) < nValue then
      (narrowLoopTrace fuel ((i + step) % 2 ^ 32) step nValue).map
        (fun t => (i : Int) :: t)
    else some []

/-- Trace of GEP indices executed by the widened copy produced by
`LASBCPass::optimizeDuplicatedLoop`: 64-bit induction variable starting at
0, stepping by the sign-extended constant with 64-bit wraparound. -/
def widenedLoopTrace (fuel : Nat) (j : Int) (step : Int) (nValue : Int) :
    Option (List Int) :=
  match fuel with
  | 0 => none
  | fuel + 1 =>
    if j < nValue then
      (widenedLoopTrace fuel (wrapToSigned 64 (j + step)) step nValue).map
        (fun t => j :: t)
    else some []

/-! ## Claim C4 — ProcessedLoops bookkeeping

Model of `LoopDuplicationPass::transformCurrentLoop` lines 192-198 (marking
`Loop::getLoopsInPreorder()` of both copies as processed) together with the
common prelude of `LoopConditionalLICMPass::runOnLoop` and
`LASBCPass::runOnLoop` (`if (ProcessedLoops.count(CurrentLoop)) return
false;` before the candidacy check).  Loop nests are trees of loop
identities; the candidacy check and the clone produced by the
transformation are oracles of the driver. -/

/-- A loop nest: the loop's identity and its immediate sub-loops. -/
inductive LoopTree where
  | node (id : Nat) (children : List LoopTree)

mutual

/-- Transcription of `Loop::getLoopsInPreorder`: the loop followed by its
descendants in pre-order. -/
def preorder : LoopTree → List Nat
  | .node i cs => i :: preorderList cs

/-- Pre-order traversal of a forest of loop nests. -/
def preorderList : List LoopTree → List Nat
  | [] => []
  | t :: ts => preorder t ++ preorderList ts

end

/-- Pass state: the `ProcessedLoops` set (as a list) and a counter of
structural edits applied to the function. -/
structure PassState where
  processed : List Nat
  funcVersion : Nat
deriving DecidableEq, Repr

/-- Driver-supplied oracles: the LoopInfo nest of each loop, the nest of
the clone `cloneLoop` produces for it, and the strategy's candidacy
answer. -/
structure DupDriver where
  nest : Nat → LoopTree
  dup : Nat → LoopTree
  candidate : Nat → Bool

/-- Final step of `transformCurrentLoop`: insert every loop of the
original's and the duplicate's pre-order traversal into `ProcessedLoops`. -/
def markProcessed (s : PassState) (orig dupd : LoopTree) : PassState :=
  { s with processed := s.processed ++ preorder orig ++ preorder dupd }

/-- The duplication transaction: it edits the function and marks both
nests processed. -/
def transformLoopModel (d : DupDriver) (s : PassState) (l : Nat) : PassState :=
  markProcessed { s with funcVersion := s.funcVersion + 1 } (d.nest l) (d.dup l)

/-- Control flow of `runOnLoop` shared by both passes: return false (with
no edit) when the loop is already processed or not a candidate; otherwise
transform. -/
def runOnLoopModel (d : DupDriver) (s : PassState) (l : Nat) :
    Bool × PassState :=
  if l ∈ s.processed then (false, s)
  else if !(d.candidate l) then (false, s)
  else (true, transformLoopModel d s l)

/-- Run a sequence of `runOnLoop` calls (the external loop-walking
driver). -/
def runAllModel (d : DupDriver) (s : PassState) (ls : List Nat) : PassState :=
  ls.foldl (fun s l => (runOnLoopModel d s l).2) s

/-! ## Claim C5 — merge nodes at exit successors

Model of `transformCurrentLoop` lines 130-160 (the non-landing-pad path):
for each exit block, the cloned exit's single successor `ExitSucc` receives
one additional PHI entry per merge node, whose value is the `VMap`
translation of the entry for the original exit block.  A PHI is a list of
(value, predecessor-block) pairs; `PN.addIncoming(V, NewExit)` appends. -/

/-- Lookup with fallback: `VMap` translation of a value
(`VMap.find(V)`, keeping `V` when unmapped). -/
def vmapTranslate (vmap : List (Nat × Nat)) (v : Nat) : Nat :=
  match vmap.find? (fun p => p.1 == v) with
  | some p => p.2
  | none => v

/-- Transcription of `PHINode::getIncomingValueForBlock`. -/
def getIncomingValueForBlock (phi : List (Nat × Nat)) (bb : Nat) :
    Option Nat :=
  (phi.find? (fun e => e.2 == bb)).map Prod.fst

/-- Transcription of `PHINode::addIncoming`. -/
def addIncoming (phi : List (Nat × Nat)) (v bb : Nat) : List (Nat × Nat) :=
  phi ++ [(v, bb)]

/-- The loop body of `transformCurrentLoop` lines 142-148 for one merge
node: fetch the incoming value for the original exit block, translate it
through `VMap` if mapped, and append an entry for the cloned exit block.
(The source asserts the entry exists; an ill-formed PHI is returned
unchanged.) -/
def updateExitPhi (vmap : List (Nat × Nat)) (exitBlock newExit : Nat)
    (phi : List (Nat × Nat)) : List (Nat × Nat) :=
  match getIncomingValueForBlock phi exitBlock with
  | some v => addIncoming phi (vmapTranslate vmap v) newExit
  | none => phi

/-- Entries of a merge node for a given predecessor block. -/
def entriesFor (phi : List (Nat × Nat)) (b : Nat) : List (Nat × Nat) :=
  phi.filter (fun e => e.2 == b)

/-- Merge-node completeness relative to a predecessor list: exactly one
entry per predecessor, none for non-predecessors. -/
def wfPhi (phi : List (Nat × Nat)) (preds : List Nat) : Prop :=
  ∀ b, (entriesFor phi b).length = if b ∈ preds then 1 else 0

/-! ## Mini-IR for LCLICM dependency extraction

`LoopConditionalLICMPass::populatePromotionPtrDeps` walks the stores of the
loop.  The model below carries, per function, the instruction list and the
oracles it queries: ScalarEvolution's `getUnsignedRangeMax` for
single-index GEPs (a 64-bit `APInt`, hence a natural below `2^64`),
the dominator-tree query `DT->dominates(I->getParent(), Preheader)` used by
`isAccessibleInPreheader`, and — for evaluating the emitted guard — the
runtime byte address of each pointer value (`ptrtoint`) and the byte size
of its pointee type (the `Ty` used by `GetStartAndEnd`'s GEPs). -/

/-- Values in the LCLICM promotion model. -/
inductive PVal where
  | constInt (c : Int)
  | arg (n : Nat)
  | global (n : Nat)
  | instr (id : Nat)
deriving DecidableEq, Repr

/-- Instruction payloads inspected by the dependency extraction. -/
inductive PKind where
  | load (ptr : PVal)
  | store (val ptr : PVal)
  | binop (op0 op1 : PVal)
  | gep (indices : List PVal) (ptr : PVal) (srcElemSizeBytes : Nat)
  | other
deriving DecidableEq, Repr

/-- One instruction of the promotion model. -/
structure PInstr where
  id : Nat
  kind : PKind
deriving DecidableEq, Repr

/-- A function body plus the external-analysis oracles the pass queries. -/
structure PFunc where
  instrs : List PInstr
  rangeMax : PVal → Nat
  domPreheader : Nat → Bool
  addrOf : PVal → Int
  pointeeSizeBytes : PVal → Nat

def PFunc.findInstr (F : PFunc) (id : Nat) : Option PInstr :=
  F.instrs.find? (fun I => I.id == id)

def PFunc.asInstr (F : PFunc) (v : PVal) : Option PInstr :=
  match v with
  | .instr id => F.findInstr id
  | _ => none

/-- Transcription of `dyn_cast<LoadInst>` followed by
`getPointerOperand`. -/
def PFunc.asLoad (F : PFunc) (v : PVal) : Option PVal :=
  match F.asInstr v with
  | some I =>
    match I.kind with
    | .load ptr => some ptr
    | _ => none
  | none => none

/-- Transcription of `dyn_cast<GEPOperator>` (GEP instructions only;
constant-expression GEPs are not modelled). -/
def PFunc.asGEP (F : PFunc) (v : PVal) : Option (List PVal × PVal × Nat) :=
  match F.asInstr v with
  | some I =>
    match I.kind with
    | .gep indices ptr sz => some (indices, ptr, sz)
    | _ => none
  | none => none

/-- Transcription of `dyn_cast<BinaryOperator>` on a stored value. -/
def PFunc.asBinop (F : PFunc) (v : PVal) : Option (PVal × PVal) :=
  match F.asInstr v with
  | some I =>
    match I.kind with
    | .binop op0 op1 => some (op0, op1)
    | _ => none
  | none => none

/-- Transcription of `LoopConditionalLICMPass::isAccessibleInPreheader`:
constants, arguments and globals qualify; otherwise the value must be an
instruction whose parent block dominates the preheader. -/
def isAccessibleInPreheader (F : PFunc) (v : Option PVal) : Bool :=
  match v with
  | none => false
  | some (.constInt _) => true
  | some (.arg _) => true
  | some (.global _) => true
  | some (.instr id) =>
    match F.findInstr id with
    | some _ => F.domPreheader id
    | none => false

/-- GEP step offset (the `APInt Offset` of one iteration of the chain
walk): for a single-index GEP the ScalarEvolution unsigned-range maximum
of the index, otherwise the byte size of the source element type. -/
def gepStepOffset (F : PFunc) (indices : List PVal) (szBytes : Nat) : Nat :=
  match indices with
  | [idx] => F.rangeMax idx
  | _ => szBytes

/-- The `while (LI && GEP)` chain walk of `populatePromotionPtrDeps`:
starting from a load through a GEP, accumulate the offset (64-bit `APInt`
multiplication wraps modulo `2^64`) and move to the GEP's pointer operand
while it is again a load of a GEP.  The walk follows finite use-def chains
in the source; `fuel` bounds it here. -/
def chainWalk (F : PFunc) : Nat → (List PVal × PVal × Nat) → Option PVal →
    Nat → Option PVal × Nat
  | 0, _, startAddr, offset => (startAddr, offset)
  | fuel + 1, gep, startAddr, offset =>
    let step := gepStepOffset F gep.1 gep.2.2
    let offset' := match startAddr with
      | some _ => offset * step % 2 ^ 64
      | none => step
    let startAddr' := gep.2.1
    match F.asLoad startAddr' with
    | some liPtr =>
      match F.asGEP liPtr with
      | some gep' => chainWalk F fuel gep' (some startAddr') offset'
      | none => (some startAddr', offset')
    | none => (some startAddr', offset')

/-- Processing of one operand of the stored `BinaryOperator` (the body of
the `for (Value *Op : BinOp->operands())` loop): the operand must be a load
whose pointer is a GEP; the chain walk must end at an address accessible in
the preheader.  On success, return whether the operand loads through the
candidate pointer itself, together with the `{StartAddr, Offset}` entry to
record; `none` models `return false`. -/
def processOperand (F : PFunc) (fuel : Nat) (pointerOperand op : PVal) :
    Option (Bool × (PVal × Nat)) :=
  match F.asLoad op with
  | some liPtr =>
    match F.asGEP liPtr with
    | some gep =>
      match chainWalk F fuel gep none 0 with
      | (startAddr, offset) =>
        if isAccessibleInPreheader F startAddr then
          match startAddr with
          | some sa => some (liPtr == pointerOperand, (sa, offset))
          | none => none
        else none
    | none => none
  | none => none

/-- Processing of one store (one iteration of the access walk of
`populatePromotionPtrDeps`): stores to non-candidates and stores of
non-`BinaryOperator` values are skipped (`continue`); otherwise both
operands must process successfully and one of them must load through the
candidate pointer itself (`SawPointerOperand`).  Returns the entries to
append to the candidate's dependency list, or `none` for `return false`. -/
def processStore (F : PFunc) (fuel : Nat) (keys : List PVal) (si : PInstr) :
    Option (List (PVal × (PVal × Nat))) :=
  match si.kind with
  | .store val ptr =>
    if !(keys.contains ptr) then some []
    else
      match F.asBinop val with
      | none => some []
      | some (op0, op1) =>
        match processOperand F fuel ptr op0 with
        | none => none
        | some (saw0, e0) =>
          match processOperand F fuel ptr op1 with
          | none => none
          | some (saw1, e1) =>
            if saw0 || saw1 then some [(ptr, e0), (ptr, e1)] else none
  | _ => some []

/-- The dependency map `PromotionPtrDeps`: one (key, list) pair per
promotion candidate, in insertion order. -/
def depsInsert (m : List (PVal × List (PVal × Nat))) (k : PVal)
    (e : PVal × Nat) : List (PVal × List (PVal × Nat)) :=
  m.map (fun p => if p.1 == k then (p.1, p.2 ++ [e]) else p)

/-- Initial dependency map built in `runOnLoop`: each candidate key mapped
to an empty list. -/
def initDeps (keys : List PVal) : List (PVal × List (PVal × Nat)) :=
  keys.map (fun k => (k, ([] : List (PVal × Nat))))

/-- The store walk of `populatePromotionPtrDeps`: process each store in
turn, appending recorded entries, aborting on the first failure. -/
def populateGo (F : PFunc) (fuel : Nat) (keys : List PVal) :
    List PInstr → List (PVal × List (PVal × Nat)) →
    Option (List (PVal × List (PVal × Nat)))
  | [], m => some m
  | si :: rest, m =>
    match processStore F fuel keys si with
    | none => none
    | some es =>
      populateGo F fuel keys rest (es.foldl (fun m e => depsInsert m e.1 e.2) m)

/-- Transcription of `LoopConditionalLICMPass::populatePromotionPtrDeps`:
walk all loop stores; on success return whether anything was collected
(`Pair.second.size() > 0` for some candidate). -/
def populatePromotionPtrDeps (F : PFunc) (fuel : Nat) (keys : List PVal)
    (loopStores : List PInstr) : Bool :=
  match populateGo F fuel keys loopStores (initDeps keys) with
  | none => false
  | some m => m.any (fun p => p.2.length > 0)

/-- Control flow of `LoopConditionalLICMPass::runOnLoop`: processed check,
candidacy check, promotion-candidate collection (its result supplied as
`sets`), dependency extraction; `true` means `transformCurrentLoop` ran. -/
def lclicmRunOnLoop (processed : Bool) (q : LoopQuery)
    (sets : List (List PVal)) (F : PFunc) (fuel : Nat)
    (loopStores : List PInstr) : Bool :=
  if processed then false
  else if !(lclicmIsCurrentLoopACandidate q) then false
  else if sets.isEmpty then false
  else populatePromotionPtrDeps F fuel (sets.filterMap List.head?) loopStores

/-! ### The emitted guard (LoopConditionalLICMPass::emitPreheaderBranch) -/

/-- Transcription of `GetStartAndEnd`: `Start` is the address of the
recorded base pointer (`GEP` with index 0 followed by `ptrtoint`); `End` is
the address of the `GEP` at index `Offset`, i.e. `Start` plus `Offset`
elements of the pointee type. -/
def getStartAndEnd (F : PFunc) (dep : PVal × Nat) : Int × Int :=
  (F.addrOf dep.1,
   F.addrOf dep.1 + (dep.2 : Int) * (F.pointeeSizeBytes dep.1 : Int))

/-- All ordered pairs `(l[i], l[j])` with `i < j` of one list, in the
iteration order of the source's nested loops. -/
def listPairs {α : Type} : List α → List (α × α)
  | [] => []
  | a :: rest => rest.map (fun b => (a, b)) ++ listPairs rest

/-- The `OverlapConditionPair` record: start/end addresses of the two
ranges of one pair. -/
structure OverlapConditionPair where
  startA : Int
  startB : Int
  endA : Int
  endB : Int
deriving DecidableEq, Repr

/-- The pair collection of `emitPreheaderBranch`: for each candidate's
dependency list, all pairs of distinct entries. -/
def overlapConditionPairs (F : PFunc)
    (m : List (PVal × List (PVal × Nat))) : List OverlapConditionPair :=
  (m.map Prod.snd).foldr
    (fun l acc =>
      (listPairs l).map (fun ab =>
        ⟨(getStartAndEnd F ab.1).1, (getStartAndEnd F ab.2).1,
         (getStartAndEnd F ab.1).2, (getStartAndEnd F ab.2).2⟩) ++ acc) []

/-- Runtime value of one emitted `Or`:
`Cmp1 = icmp sgt StartA, EndB` and `Cmp2 = icmp slt EndB, StartA`
(transcribed exactly as the source constructs them). -/
def overlapOr (ocp : OverlapConditionPair) : Bool :=
  decide (ocp.startA > ocp.endB) || decide (ocp.endB < ocp.startA)

/-- Runtime values of the emitted `Ors` vector. -/
def emittedOrs (F : PFunc) (m : List (PVal × List (PVal × Nat))) :
    List Bool :=
  (overlapConditionPairs F m).map overlapOr

/-- Runtime value of `FinalCond`: the single `Or`, or the left fold of
`And`s over `Ors[0], Ors[1], Ors[2], ...`; `none` when `Ors` is empty (the
source would read `Ors[0]` out of bounds). -/
def emittedFinalCond (F : PFunc) (m : List (PVal × List (PVal × Nat))) :
    Option Bool :=
  match emittedOrs F m with
  | [] => none
  | [o] => some o
  | o0 :: o1 :: rest => some (rest.foldl (fun a b => a && b) (o0 && o1))

/-- Disjointness of the byte ranges `[b1, b1+o1)` and `[b2, b2+o2)` as the
claim states it. -/
def rangesDisjoint (b1 o1 b2 o2 : Int) : Prop :=
  b1 + o1 ≤ b2 ∨ b2 + o2 ≤ b1

/-- The non-overlap predicate the source's own comment (and the claim)
specify for a pair: `StartA > EndB` or `EndA < StartB`. -/
def commentNonOverlap (ocp : OverlapConditionPair) : Prop :=
  ocp.startA > ocp.endB ∨ ocp.endA < ocp.startB

/-! ### Concrete LCLICM instances -/

/-- A `LoopQuery` that passes every check of
`LoopConditionalLICMPass::isCurrentLoopACandidate`. -/
def lclicmGoodQuery : LoopQuery := ⟨true, some 0, true, some 1, some 2, []⟩

/-- Concrete promotion scenario: the candidate pointer is `instr 20`
(a GEP off `global 0`); store 60 stores `load(instr 20) op load(instr 40)`
where `instr 40` is a GEP off `global 1`; store 61 stores the constant 0
to the candidate.  ScalarEvolution bounds the first GEP index by 99 and
the second by 7; `global 0` lives at byte address 0 and `global 1` at 100,
both with byte-sized elements. -/
def lclicmExampleFunc : PFunc :=
  ⟨[⟨20, .gep [.instr 50] (.global 0) 8⟩,
    ⟨31, .load (.instr 20)⟩,
    ⟨40, .gep [.arg 0] (.global 1) 8⟩,
    ⟨32, .load (.instr 40)⟩,
    ⟨30, .binop (.instr 31) (.instr 32)⟩,
    ⟨60, .store (.instr 30) (.instr 20)⟩,
    ⟨61, .store (.constInt 0) (.instr 20)⟩],
   fun v => match v with
     | .instr 50 => 99
     | .arg 0 => 7
     | _ => 0,
   fun _ => true,
   fun v => match v with
     | .global 0 => 0
     | .global 1 => 100
     | _ => 0,
   fun _ => 1⟩

/-- The stores of the loop body in `lclicmExampleFunc`. -/
def lclicmExampleStores : List PInstr :=
  [⟨60, .store (.instr 30) (.instr 20)⟩,
   ⟨61, .store (.constInt 0) (.instr 20)⟩]

/-- The dependency map produced for `lclicmExampleFunc`. -/
def lclicmExampleDeps : List (PVal × List (PVal × Nat)) :=
  [(.instr 20, [(.global 0, 99), (.global 1, 7)])]

/-- A promotion scenario whose only store stores a `BinaryOperator` with a
constant (non-load) first operand — the shape that makes dependency
extraction fail. -/
def lclicmBadFunc : PFunc :=
  ⟨[⟨20, .gep [.instr 50] (.global 0) 8⟩,
    ⟨31, .load (.instr 20)⟩,
    ⟨70, .binop (.constInt 1) (.instr 31)⟩,
    ⟨62, .store (.instr 70) (.instr 20)⟩],
   fun _ => 0, fun _ => true, fun _ => 0, fun _ => 1⟩

/-! ## Theorems -/

theorem wrapToSigned_eq_self {w : Nat} {x : Int} (hw : 1 ≤ w) (h0 : 0 ≤ x)
    (h1 : x < 2 ^ (w - 1)) : wrapToSigned w x = x := by
  unfold wrapToSigned
  have hsplit : (2:Int) ^ w = 2 ^ (w - 1) * 2 := by
    conv_lhs => rw [show w = (w - 1) + 1 by omega]
    rw [pow_succ]
  have hlt : x + 2 ^ (w - 1) < 2 ^ w := by
    rw [hsplit]; omega
  have hge : (0:Int) ≤ x + 2 ^ (w - 1) := by positivity
  rw [Int.emod_eq_of_lt hge hlt]
  omega

theorem findInstr_self {F : Func} {id : Nat} {I : Instr}
    (h : F.findInstr id = some I) : I.id = id ∧ F.findInstr I.id = some I := by
  have hp := List.find?_some h
  have hid : I.id = id := by simpa using hp
  exact ⟨hid, by rw [hid]; exact h⟩

theorem ivCheckBranch_some {F : Func} {L : MiniLoop} {PN IterValue : Instr}
    {c : Int} {ZExt Compare NInst : Instr} {cap : CapturedIV}
    (h : ivCheckBranch F L PN IterValue c ZExt Compare NInst = some cap) :
    cap = ⟨PN.id, IterValue.id, c, ZExt.id, NInst.id⟩ := by
  unfold ivCheckBranch at h
  split at h <;> try exact Option.noConfusion h
  split at h <;> try exact Option.noConfusion h
  split at h <;> try exact Option.noConfusion h
  split at h <;> try exact Option.noConfusion h
  exact (Option.some_inj.mp h).symm

theorem ivCheckN_some {F : Func} {L : MiniLoop} {PN IterValue : Instr}
    {c : Int} {ZExt Compare : Instr} {nVal : Value} {cap : CapturedIV}
    (h : ivCheckN F L PN IterValue c ZExt Compare nVal = some cap) :
    ∃ NInst, F.asInstr nVal = some NInst ∧
      L.containsBlock NInst.block = false ∧
      L.preheader = some NInst.block ∧ cap.n = NInst.id := by
  unfold ivCheckN at h
  split at h <;> try exact Option.noConfusion h
  rename_i NInst hN
  split at h <;> try exact Option.noConfusion h
  rename_i hinv
  split at h <;> try exact Option.noConfusion h
  rename_i hpre
  refine ⟨NInst, hN, by simpa using hinv, ?_, ?_⟩
  · have : (L.preheader == some NInst.block) = true := by
      simpa using hpre
    simpa using this
  · rw [ivCheckBranch_some h]

theorem ivCheckZExt_some {F : Func} {L : MiniLoop} {PN IterValue : Instr}
    {c : Int} {ZExt : Instr} {cap : CapturedIV}
    (h : ivCheckZExt F L PN IterValue c ZExt = some cap) :
    ∃ Compare nVal,
      ivCheckN F L PN IterValue c ZExt Compare nVal = some cap := by
  unfold ivCheckZExt at h
  split at h <;> try exact Option.noConfusion h
  split at h <;> try exact Option.noConfusion h
  exact ⟨_, _, h⟩

theorem isPHIAnAppropriateIV_some {F : Func} {L : MiniLoop} {PN : Instr}
    {cap : CapturedIV} (h : isPHIAnAppropriateIV F L PN = some cap) :
    ∃ IterValue c ZExt,
      ivCheckZExt F L PN IterValue c ZExt = some cap := by
  unfold isPHIAnAppropriateIV at h
  split at h <;> try exact Option.noConfusion h
  split at h <;> try exact Option.noConfusion h
  split at h <;> try exact Option.noConfusion h
  split at h <;> try exact Option.noConfusion h
  split at h <;> try exact Option.noConfusion h
  split at h <;> try exact Option.noConfusion h
  split at h <;> try exact Option.noConfusion h
  split at h <;> try exact Option.noConfusion h
  split at h <;> try exact Option.noConfusion h
  split at h <;> try exact Option.noConfusion h
  exact ⟨_, _, _, h⟩

/-- Success of `isPHIAnAppropriateIV` pins down `N`: it is an instruction,
loop-invariant, whose defining block is exactly the loop preheader (the
checks at the end of the source function). -/
theorem appropriateIV_n_in_preheader {F : Func} {L : MiniLoop} {PN : Instr}
    {cap : CapturedIV} (h : isPHIAnAppropriateIV F L PN = some cap) :
    ∃ I, F.findInstr cap.n = some I ∧ L.preheader = some I.block ∧
      L.containsBlock I.block = false := by
  obtain ⟨IterValue, c, ZExt, hz⟩ := isPHIAnAppropriateIV_some h
  obtain ⟨Compare, nVal, hn⟩ := ivCheckZExt_some hz
  obtain ⟨NInst, hasI, hinv, hpre, hcapn⟩ := ivCheckN_some hn
  have : ∃ id, nVal = Value.instr id ∧ F.findInstr id = some NInst := by
    unfold Func.asInstr at hasI
    split at hasI <;> try exact absurd hasI (by simp)
    next id => exact ⟨id, rfl, hasI⟩
  obtain ⟨id, _, hfind⟩ := this
  obtain ⟨hid, hfind'⟩ := findInstr_self hfind
  exact ⟨NInst, by rw [hcapn]; exact hfind', hpre, hinv⟩

/-- Claim C1: for the accepted loop whose induction-variable PHI starts at
5 (step 1, runtime `N = 6`), the guard is true and control reaches the
widened copy, but the widened copy executes body iterations at indices
0..5 while the original narrow loop executes only index 5: the observable
traces differ.  The candidacy check never requires the PHI's initial value
to be 0, yet `optimizeDuplicatedLoop` seeds the widened PHI with 0. -/
theorem lasbc_transform_changes_observable_trace :
    lasbcIsCurrentLoopACandidate (lasbcExampleLoop 5 (Value.instr 100))
      lasbcExampleLoopInfo = true ∧
    lasbcGuard 64 6 = true ∧
    lasbcBranchTarget 64 6 = LoopCopy.widened ∧
    narrowLoopTrace 8 5 1 6 = some [5] ∧
    widenedLoopTrace 8 0 1 6 = some [0, 1, 2, 3, 4, 5] ∧
    narrowLoopTrace 8 5 1 6 ≠ widenedLoopTrace 8 0 1 6 := by
  refine ⟨by decide, by decide, by decide, by decide, by decide, by decide⟩

/-! ## Claim C2 — LASBC guard arithmetic -/

/-- Claim C2, counterexample: for `N = 2^61` the emitted guard evaluates
true (the 64-bit product `N * 8` wraps to `0 ≤ INT32_MAX`), although the
claim requires it to be false since mathematically `2^61 * 8 > INT32_MAX`. -/
theorem lasbcGuard_overflow_counterexample :
    lasbcGuard 64 (2 ^ 61) = true ∧ ¬((2 : Int) ^ 61 * 8 ≤ INT32_MAX) := by
  constructor
  · decide
  · decide

/-- Claim C2 (amended): the guard emitted by
`LASBCPass::emitPreheaderBranch` for a 64-bit `N` evaluates true iff
`N > 0` and the two's-complement 64-bit product `N * 8` is at most
INT32_MAX; for `0 < N < 2^60` the product cannot wrap, so the guard
coincides with the mathematical bound `N * 8 ≤ INT32_MAX`; when the guard
is true the branch transfers control to the widened copy, otherwise to the
unmodified narrow clone. -/
theorem lasbcGuard_spec (n : Int) :
    (lasbcGuard 64 n = true ↔
      0 < n ∧ wrapToSigned 64 (n * 8) ≤ INT32_MAX) ∧
    (0 < n → n < 2 ^ 60 →
      (lasbcGuard 64 n = true ↔ n * 8 ≤ INT32_MAX)) ∧
    (lasbcBranchTarget 64 n = LoopCopy.widened ↔ lasbcGuard 64 n = true) := by
  have h0 : intConst 64 0 = 0 := by decide
  have h8 : intConst 64 (64 / 8 : Int) = 8 := by decide
  have hmax : intConst 64 INT32_MAX = INT32_MAX := by decide
  have hmain : lasbcGuard 64 n = true ↔
      0 < n ∧ wrapToSigned 64 (n * 8) ≤ INT32_MAX := by
    unfold lasbcGuard
    simp only [Nat.cast_ofNat, beq_iff_eq, Bool.and_eq_true, decide_eq_true_eq]
    rw [h0, h8, hmax]
  refine ⟨hmain, ?_, ?_⟩
  · intro hpos hlt
    have hwrap : wrapToSigned 64 (n * 8) = n * 8 := by
      refine wrapToSigned_eq_self (by norm_num) (by positivity) ?_
      have : n * 8 < 2 ^ 60 * 8 := by
        have h8pos : (0:Int) < 8 := by norm_num
        exact (mul_lt_mul_right h8pos).mpr hlt
      calc n * 8 < 2 ^ 60 * 8 := this
        _ ≤ 2 ^ (64 - 1) := by norm_num
    rw [hmain, hwrap]
    constructor
    · exact fun h => h.2
    · exact fun h => ⟨hpos, h⟩
  · unfold lasbcBranchTarget
    rcases hg : lasbcGuard 64 n
    · simp
    · simp

/-- Claim C2, witness: at `N = 100` the guard is true and the branch
selects the widened copy. -/
theorem lasbcGuard_spec_witness :
    lasbcGuard 64 100 = true ∧ lasbcBranchTarget 64 100 = LoopCopy.widened := by
  have h := lasbcGuard_spec 100
  have hg : lasbcGuard 64 100 = true :=
    (h.2.1 (by norm_num) (by norm_num)).mpr (by norm_num [INT32_MAX])
  exact ⟨hg, h.2.2.mpr hg⟩

/-! ## Claim C6 — LASBC candidacy performs no structural checks -/

/-- Claim C6, counterexample: `lasbcStructLoop` is accepted by
`LASBCPass::isCurrentLoopACandidate` although it has two exiting blocks,
two exit blocks, is not safe to clone (indirect branch in block 3) and has
a sub-loop — the only structural property acceptance guarantees is the
existence of a preheader. -/
theorem lasbcCandidate_structural_counterexample :
    lasbcIsCurrentLoopACandidate lasbcStructLoop lasbcStructLoopInfo = true ∧
    (exitingBlocks lasbcStructLoop lasbcStructLoopInfo).length = 2 ∧
    (exitBlocks lasbcStructLoop lasbcStructLoopInfo).length = 2 ∧
    loopIsSafeToClone lasbcStructLoop lasbcStructLoopInfo = false ∧
    lasbcStructLoopInfo.subLoopHeaders ≠ [] ∧
    lasbcStructLoopInfo.preheader = some 0 := by
  refine ⟨by decide, by decide, by decide, by decide, by decide, by decide⟩

/-- Claim C6 (amended): every loop accepted by
`LASBCPass::isCurrentLoopACandidate` has a preheader (because the captured
`N` must be an instruction defined in it); no check of safety-to-clone,
single exiting block, single exit block, or absence of sub-loops is
performed. -/
theorem lasbcCandidate_has_preheader {F : Func} {L : MiniLoop}
    (h : lasbcIsCurrentLoopACandidate F L = true) :
    ∃ p, L.preheader = some p := by
  unfold lasbcIsCurrentLoopACandidate at h
  obtain ⟨PN, _, hsome⟩ := List.any_eq_true.mp h
  obtain ⟨cap, hcap⟩ := Option.isSome_iff_exists.mp hsome
  obtain ⟨I, _, hpre, _⟩ := appropriateIV_n_in_preheader hcap
  exact ⟨I.block, hpre⟩

/-- Claim C6, witness: the accepted test loop indeed has a preheader. -/
theorem lasbcCandidate_has_preheader_witness :
    ∃ p, lasbcExampleLoopInfo.preheader = some p :=
  @lasbcCandidate_has_preheader (lasbcExampleLoop 0 (Value.instr 100))
    lasbcExampleLoopInfo (by decide)

/-! ## Claim C7 — what `N` may be -/

/-- Claim C7, counterexample: with the exit comparison's other operand
being a constant, an argument, a global, or an instruction defined in a
block (9) that dominates the preheader but is not the preheader itself,
the otherwise identical loop is rejected; only the preheader-resident
instruction (the load `instr 100`) is accepted. -/
theorem lasbcCandidate_rejects_nonpreheader_N :
    lasbcIsCurrentLoopACandidate (lasbcExampleLoop 0 (Value.constInt 100))
      lasbcExampleLoopInfo = false ∧
    lasbcIsCurrentLoopACandidate (lasbcExampleLoop 0 (Value.arg 1))
      lasbcExampleLoopInfo = false ∧
    lasbcIsCurrentLoopACandidate (lasbcExampleLoop 0 (Value.global 2))
      lasbcExampleLoopInfo = false ∧
    lasbcIsCurrentLoopACandidate (lasbcExampleLoop 0 (Value.instr 99))
      lasbcExampleLoopInfo = false ∧
    lasbcIsCurrentLoopACandidate (lasbcExampleLoop 0 (Value.instr 100))
      lasbcExampleLoopInfo = true := by
  refine ⟨by decide, by decide, by decide, by decide, by decide⟩

/-- Claim C7 (amended): whenever the induction-variable recognition
succeeds, the captured `N` is an instruction that is loop-invariant and
whose defining block is exactly the loop preheader; constants, arguments,
globals and instructions merely dominating the preheader are rejected. -/
theorem lasbcIV_requires_preheader_instr {F : Func} {L : MiniLoop}
    {PN : Instr} {cap : CapturedIV}
    (h : isPHIAnAppropriateIV F L PN = some cap) :
    ∃ I, F.findInstr cap.n = some I ∧ L.preheader = some I.block ∧
      L.containsBlock I.block = false :=
  appropriateIV_n_in_preheader h

/-- Claim C7, witness: on the accepted test loop the recognition captures
`N = instr 100`, the preheader load. -/
theorem lasbcIV_requires_preheader_instr_witness :
    ∃ I, (lasbcExampleLoop 0 (Value.instr 100)).findInstr
        (CapturedIV.n ⟨1, 4, 1, 2, 100⟩) = some I ∧
      lasbcExampleLoopInfo.preheader = some I.block ∧
      lasbcExampleLoopInfo.containsBlock I.block = false :=
  @lasbcIV_requires_preheader_instr (lasbcExampleLoop 0 (Value.instr 100))
    lasbcExampleLoopInfo ⟨1, 1, true, 32, .phi [(.constInt 0, 0), (.instr 4, 2)]⟩
    ⟨1, 4, 1, 2, 100⟩ (by decide)

theorem runOnLoopModel_processed_mono (d : DupDriver) (s : PassState)
    (l x : Nat) (hx : x ∈ s.processed) :
    x ∈ (runOnLoopModel d s l).2.processed := by
  unfold runOnLoopModel
  split
  · exact hx
  split
  · exact hx
  · unfold transformLoopModel markProcessed
    simp only [List.mem_append]
    exact Or.inl (Or.inl hx)

theorem runAllModel_processed_mono (d : DupDriver) (s : PassState)
    (ls : List Nat) (x : Nat) (hx : x ∈ s.processed) :
    x ∈ (runAllModel d s ls).processed := by
  induction ls generalizing s with
  | nil => simpa [runAllModel] using hx
  | cons l ls ih =>
    exact ih _ (runOnLoopModel_processed_mono d s l x hx)

theorem runOnLoopModel_true {d : DupDriver} {s : PassState} {l : Nat}
    (hT : (runOnLoopModel d s l).1 = true) :
    runOnLoopModel d s l = (true, transformLoopModel d s l) := by
  unfold runOnLoopModel at hT ⊢
  split at hT
  · simp at hT
  · split at hT
    · simp at hT
    · rename_i h1 h2
      rw [if_neg h1, if_neg h2]

theorem runOnLoopModel_of_processed {d : DupDriver} {s : PassState} {x : Nat}
    (hx : x ∈ s.processed) : runOnLoopModel d s x = (false, s) := by
  unfold runOnLoopModel
  rw [if_pos hx]

/-- Claim C4: when `runOnLoop` transforms a loop, every loop of the
original's and the duplicate's pre-order nest is recorded in
`ProcessedLoops`, and any later `runOnLoop` call on such a loop — after an
arbitrary sequence of further calls — returns false and leaves the state
(including the function) unchanged. -/
theorem processed_loops_idempotent (d : DupDriver) (s : PassState)
    (l0 x : Nat) (later : List Nat)
    (hT : (runOnLoopModel d s l0).1 = true)
    (hx : x ∈ preorder (d.nest l0) ++ preorder (d.dup l0)) :
    x ∈ (runOnLoopModel d s l0).2.processed ∧
    (runOnLoopModel d (runAllModel d (runOnLoopModel d s l0).2 later) x).1
      = false ∧
    (runOnLoopModel d (runAllModel d (runOnLoopModel d s l0).2 later) x).2
      = runAllModel d (runOnLoopModel d s l0).2 later := by
  have hmem : x ∈ (runOnLoopModel d s l0).2.processed := by
    rw [runOnLoopModel_true hT]
    unfold transformLoopModel markProcessed
    simp only [List.mem_append] at hx ⊢
    tauto
  have hmem2 : x ∈ (runAllModel d (runOnLoopModel d s l0).2 later).processed :=
    runAllModel_processed_mono d _ later x hmem
  have hfin := @runOnLoopModel_of_processed d _ _ hmem2
  exact ⟨hmem, by rw [hfin], by rw [hfin]⟩

/-- Claim C4, witness: a concrete driver where loop 0 is transformed
(cloning it as loop 1); after one further call on loop 7, the call on
loop 1 (the duplicate) reports no change. -/
theorem processed_loops_idempotent_witness :
    1 ∈ (runOnLoopModel ⟨fun _ => .node 0 [], fun _ => .node 1 [],
        fun _ => true⟩ ⟨[], 0⟩ 0).2.processed ∧
    (runOnLoopModel ⟨fun _ => .node 0 [], fun _ => .node 1 [], fun _ => true⟩
      (runAllModel ⟨fun _ => .node 0 [], fun _ => .node 1 [], fun _ => true⟩
        (runOnLoopModel ⟨fun _ => .node 0 [], fun _ => .node 1 [],
          fun _ => true⟩ ⟨[], 0⟩ 0).2 [7]) 1).1 = false := by
  have h := processed_loops_idempotent
    ⟨fun _ => .node 0 [], fun _ => .node 1 [], fun _ => true⟩
    ⟨[], 0⟩ 0 1 [7] (by decide) (by decide)
  exact ⟨h.1, h.2.1⟩

theorem entriesFor_append (phi : List (Nat × Nat)) (e : Nat × Nat) (b : Nat) :
    entriesFor (phi ++ [e]) b =
      entriesFor phi b ++ (if e.2 = b then [e] else []) := by
  unfold entriesFor
  rw [List.filter_append]
  congr 1
  by_cases h : e.2 = b
  · simp [List.filter, h]
  · have hb : (e.2 == b) = false := by simpa using h
    simp [List.filter, hb, h]

/-- Claim C5: if a merge node at the exit successor has exactly one entry
per predecessor and the cloned exit block is a fresh predecessor, then
after `transformCurrentLoop` the merge node has exactly one entry per
predecessor of the extended predecessor set, the original entries are
untouched, and the single new entry carries the `VMap`-translated value
for the cloned exit block. -/
theorem merge_node_completeness (vmap : List (Nat × Nat))
    (exitBlock newExit : Nat) (preds : List Nat) (phi : List (Nat × Nat))
    (hwf : wfPhi phi preds) (hex : exitBlock ∈ preds)
    (hnew : newExit ∉ preds) :
    wfPhi (updateExitPhi vmap exitBlock newExit phi) (newExit :: preds) ∧
    (∀ b ∈ preds,
      entriesFor (updateExitPhi vmap exitBlock newExit phi) b
        = entriesFor phi b) ∧
    ∃ v, getIncomingValueForBlock phi exitBlock = some v ∧
      entriesFor (updateExitPhi vmap exitBlock newExit phi) newExit
        = [(vmapTranslate vmap v, newExit)] := by
  have hlen := hwf exitBlock
  rw [if_pos hex] at hlen
  have hne : entriesFor phi exitBlock ≠ [] := by
    intro hnil
    rw [hnil] at hlen
    simp at hlen
  obtain ⟨e, he⟩ := List.exists_mem_of_ne_nil _ hne
  have hmemf := List.mem_filter.mp he
  have hfind : (phi.find? (fun p => p.2 == exitBlock)).isSome := by
    rw [List.find?_isSome]
    exact ⟨e, hmemf.1, hmemf.2⟩
  obtain ⟨p, hp⟩ := Option.isSome_iff_exists.mp hfind
  have hval : getIncomingValueForBlock phi exitBlock = some p.1 := by
    unfold getIncomingValueForBlock
    rw [hp]
    rfl
  have hupd : updateExitPhi vmap exitBlock newExit phi
      = phi ++ [(vmapTranslate vmap p.1, newExit)] := by
    unfold updateExitPhi
    rw [hval]
    rfl
  have hempty : entriesFor phi newExit = [] := by
    have := hwf newExit
    rw [if_neg hnew] at this
    exact List.length_eq_zero.mp this
  refine ⟨?_, ?_, p.1, hval, ?_⟩
  · intro b
    rw [hupd, entriesFor_append]
    by_cases hb : b = newExit
    · subst hb
      rw [hempty]
      simp [List.mem_cons]
    · have hcond : ¬((vmapTranslate vmap p.1, newExit) : Nat × Nat).2 = b :=
        fun h => hb h.symm
      rw [if_neg hcond, List.append_nil, hwf b]
      by_cases hbp : b ∈ preds
      · rw [if_pos hbp, if_pos (List.mem_cons_of_mem _ hbp)]
      · rw [if_neg hbp,
          if_neg (fun hmem => (List.mem_cons.mp hmem).elim hb hbp)]
  · intro b hb
    rw [hupd, entriesFor_append]
    have hcond : ¬((vmapTranslate vmap p.1, newExit) : Nat × Nat).2 = b :=
      fun h => hnew ((show newExit = b from h).symm ▸ hb)
    rw [if_neg hcond, List.append_nil]
  · rw [hupd, entriesFor_append, hempty]
    simp

/-- Claim C5, witness: a concrete merge node with predecessors 1 and 2,
exit block 2, cloned exit 9, and `VMap` mapping value 10 to 20. -/
theorem merge_node_completeness_witness :
    entriesFor (updateExitPhi [(10, 20)] 2 9 [(5, 1), (10, 2)]) 9
      = [(20, 9)] := by
  have h := merge_node_completeness [(10, 20)] 2 9 [1, 2] [(5, 1), (10, 2)]
    ?_ (by decide) (by decide)
  · obtain ⟨_, _, v, hv, hent⟩ := h
    have : v = 10 := by
      have : getIncomingValueForBlock [(5, 1), (10, 2)] 2 = some 10 := by
        decide
      rw [this] at hv
      exact (Option.some_inj.mp hv).symm
    subst this
    simpa using hent
  · intro b
    by_cases h1 : b = 1
    · subst h1; decide
    by_cases h2 : b = 2
    · subst h2; decide
    · have hm : b ∈ [1, 2] ↔ False := by
        simp [List.mem_cons]
        exact ⟨h1, h2⟩
      rw [if_neg (hm.mp ∘ id)]
      unfold entriesFor
      have e1 : ((5, 1).2 == b) = false := by
        simp
        exact fun h => h1 h.symm
      have e2 : ((10, 2).2 == b) = false := by
        simp
        exact fun h => h2 h.symm
      simp [List.filter, e1, e2]

/-! ## Claim C3 — the emitted non-overlap guard -/

/-- Claim C3: for the two recorded ranges `[0, 99)` off `global 0` and
`[100, 107)` off `global 1` (byte-sized elements), the ranges are disjoint,
the source's own comment predicate `StartA > EndB or EndA < StartB` is
true, yet the emitted guard evaluates false: the second emitted comparison
is `slt EndB, StartA` (equivalent to the first, `sgt StartA, EndB`) instead
of the documented `slt EndA, StartB`. -/
theorem lclicm_guard_disjointness_counterexample :
    rangesDisjoint 0 99 100 7 ∧
    overlapConditionPairs lclicmExampleFunc lclicmExampleDeps
      = [⟨0, 100, 99, 107⟩] ∧
    commentNonOverlap ⟨0, 100, 99, 107⟩ ∧
    overlapOr ⟨0, 100, 99, 107⟩ = false ∧
    emittedFinalCond lclicmExampleFunc lclicmExampleDeps = some false := by
  refine ⟨by unfold rangesDisjoint; norm_num, by decide, ?_, by decide,
    by decide⟩
  unfold commentNonOverlap
  norm_num

/-! ## Claim C8 — failing dependency extraction -/

theorem populateGo_fails_of_mem (F : PFunc) (fuel : Nat) (keys : List PVal)
    (stores : List PInstr) (si : PInstr) (hmem : si ∈ stores)
    (hbad : processStore F fuel keys si = none) :
    ∀ m, populateGo F fuel keys stores m = none := by
  induction stores with
  | nil => cases hmem
  | cons hd tl ih =>
    intro m
    rcases List.mem_cons.mp hmem with rfl | hmem'
    · simp only [populateGo, hbad]
    · cases hps : processStore F fuel keys hd with
      | none => simp only [populateGo, hps]
      | some es =>
        simp only [populateGo, hps]
        exact ih hmem' _

/-- Claim C8, counterexample: a store of a non-`BinaryOperator` value
(the constant 0, store 61) to the promotion candidate does not make the
attempt fail: it is skipped, the other store populates the dependency
map, and `runOnLoop` still duplicates the loop (returns true). -/
theorem lclicm_nonbinop_store_not_fatal :
    lclicmRunOnLoop false lclicmGoodQuery [[PVal.instr 20]] lclicmExampleFunc
      10 lclicmExampleStores = true ∧
    (⟨61, .store (.constInt 0) (.instr 20)⟩ : PInstr) ∈ lclicmExampleStores ∧
    ([[PVal.instr 20]].filterMap List.head?).contains (PVal.instr 20)
      = true ∧
    lclicmExampleFunc.asBinop (.constInt 0) = none := by
  refine ⟨by decide, by decide, by decide, by decide⟩

/-- Claim C8 (amended): when some store of the loop fails the dependency
extraction (a store to a candidate of a `BinaryOperator` whose operands are
not loads through GEPs with a preheader-accessible chain base, or none of
which loads through the candidate itself), the whole attempt fails:
`populatePromotionPtrDeps` returns false, `runOnLoop` returns false, and no
duplication occurs.  Stores of non-`BinaryOperator` values are skipped
rather than fatal. -/
theorem lclicm_failing_store_aborts (processed : Bool) (q : LoopQuery)
    (sets : List (List PVal)) (F : PFunc) (fuel : Nat)
    (loopStores : List PInstr) (si : PInstr) (hmem : si ∈ loopStores)
    (hbad : processStore F fuel (sets.filterMap List.head?) si = none) :
    populatePromotionPtrDeps F fuel (sets.filterMap List.head?) loopStores
      = false ∧
    lclicmRunOnLoop processed q sets F fuel loopStores = false := by
  have hgo := populateGo_fails_of_mem F fuel (sets.filterMap List.head?)
    loopStores si hmem hbad
  have hpop : populatePromotionPtrDeps F fuel (sets.filterMap List.head?)
      loopStores = false := by
    unfold populatePromotionPtrDeps
    rw [hgo]
  refine ⟨hpop, ?_⟩
  unfold lclicmRunOnLoop
  split
  · rfl
  split
  · rfl
  split
  · rfl
  · exact hpop

/-- Claim C8, witness: the ill-shaped store 62 (binop with a constant
operand) makes extraction and `runOnLoop` fail on `lclicmBadFunc`. -/
theorem lclicm_failing_store_aborts_witness :
    lclicmRunOnLoop false lclicmGoodQuery [[PVal.instr 20]] lclicmBadFunc 10
      [⟨62, .store (.instr 70) (.instr 20)⟩] = false := by
  have h := lclicm_failing_store_aborts false lclicmGoodQuery
    [[PVal.instr 20]] lclicmBadFunc 10
    [⟨62, .store (.instr 70) (.instr 20)⟩]
    ⟨62, .store (.instr 70) (.instr 20)⟩ (by decide) (by decide)
  exact h.2

/-! ## Claim C9 — the branch condition is always defined -/

/-- Every successfully processed store records either nothing or exactly
two entries, both for the store's own pointer operand (the two operands of
the `BinaryOperator`). -/
theorem processStore_shape {F : PFunc} {fuel : Nat} {keys : List PVal}
    {si : PInstr} {es : List (PVal × (PVal × Nat))}
    (h : processStore F fuel keys si = some es) :
    es = [] ∨ ∃ k a b, es = [(k, a), (k, b)] := by
  unfold processStore at h
  split at h
  · rename_i val ptr hkind
    split at h
    · left
      exact (Option.some_inj.mp h).symm
    · split at h
      · left
        exact (Option.some_inj.mp h).symm
      · split at h
        · exact Option.noConfusion h
        · split at h
          · exact Option.noConfusion h
          · split at h
            · right
              exact ⟨ptr, _, _, (Option.some_inj.mp h).symm⟩
            · exact Option.noConfusion h
  · left
    exact (Option.some_inj.mp h).symm

theorem depsInsert2_parity {m : List (PVal × List (PVal × Nat))} {k : PVal}
    {a b : PVal × Nat} (h : ∀ p ∈ m, p.2.length % 2 = 0) :
    ∀ p ∈ depsInsert (depsInsert m k a) k b, p.2.length % 2 = 0 := by
  intro p hp
  unfold depsInsert at hp
  rw [List.map_map] at hp
  obtain ⟨q, hq, rfl⟩ := List.mem_map.mp hp
  have hq2 := h q hq
  simp only [Function.comp_apply]
  by_cases hk : (q.1 == k) = true
  · simp [hk]
    omega
  · have hk' : (q.1 == k) = false := by simpa using hk
    simp [hk']
    omega

theorem populateGo_parity (F : PFunc) (fuel : Nat) (keys : List PVal)
    (stores : List PInstr) :
    ∀ (m0 m : List (PVal × List (PVal × Nat))),
    (∀ p ∈ m0, p.2.length % 2 = 0) →
    populateGo F fuel keys stores m0 = some m →
    ∀ p ∈ m, p.2.length % 2 = 0 := by
  induction stores with
  | nil =>
    intro m0 m h0 hgo
    have : m0 = m := Option.some_inj.mp (by simpa [populateGo] using hgo)
    exact this ▸ h0
  | cons hd tl ih =>
    intro m0 m h0 hgo
    unfold populateGo at hgo
    split at hgo
    · exact Option.noConfusion hgo
    · rename_i es hes
      rcases processStore_shape hes with rfl | ⟨k, a, b, rfl⟩
      · exact ih _ _ h0 (by simpa using hgo)
      · exact ih _ _ (depsInsert2_parity h0) (by simpa using hgo)

theorem initDeps_parity (keys : List PVal) :
    ∀ p ∈ initDeps keys, p.2.length % 2 = 0 := by
  intro p hp
  obtain ⟨k, _, rfl⟩ := List.mem_map.mp hp
  rfl

theorem listPairs_ne_nil {α : Type} {l : List α} (h : 2 ≤ l.length) :
    listPairs l ≠ [] := by
  match l with
  | [] => simp at h
  | [a] => simp at h
  | a :: b :: rest => simp [listPairs]

theorem foldr_append_ne_nil {α β : Type} (f : α → List β) (ls : List α)
    (h : ∃ l ∈ ls, f l ≠ []) :
    ls.foldr (fun l acc => f l ++ acc) [] ≠ [] := by
  induction ls with
  | nil => simp at h
  | cons hd tl ih =>
    obtain ⟨l, hl, hf⟩ := h
    simp only [List.foldr_cons]
    intro hcontra
    rcases List.append_eq_nil.mp hcontra with ⟨h1, h2⟩
    rcases List.mem_cons.mp hl with rfl | hl'
    · exact hf h1
    · exact ih ⟨l, hl', hf⟩ h2

/-- Claim C9: whenever `populatePromotionPtrDeps` succeeds with something
collected (the precondition for `emitPreheaderBranch` to run), every
non-empty dependency list has at least two entries, the pair vector is
non-empty, and the final branch condition is a defined value (the
`Ors[0]`/`Ors[1]` accesses stay in bounds). -/
theorem lclicm_guard_always_defined (F : PFunc) (fuel : Nat)
    (keys : List PVal) (stores : List PInstr)
    (m : List (PVal × List (PVal × Nat)))
    (hpop : populateGo F fuel keys stores (initDeps keys) = some m)
    (hcol : m.any (fun p => p.2.length > 0) = true) :
    (∀ p ∈ m, p.2 ≠ [] → 2 ≤ p.2.length) ∧
    overlapConditionPairs F m ≠ [] ∧
    (emittedFinalCond F m).isSome = true := by
  have hpar : ∀ p ∈ m, p.2.length % 2 = 0 :=
    populateGo_parity F fuel keys stores (initDeps keys) m
      (initDeps_parity keys) hpop
  have hmin : ∀ p ∈ m, p.2 ≠ [] → 2 ≤ p.2.length := by
    intro p hp hne
    have h2 := hpar p hp
    have hlen : p.2.length ≠ 0 := fun hz => hne (List.length_eq_zero.mp hz)
    omega
  obtain ⟨p, hp, hplen⟩ := List.any_eq_true.mp hcol
  have hplen' : 0 < p.2.length := by simpa using hplen
  have hp2 : 2 ≤ p.2.length :=
    hmin p hp (fun hnil => by simp [hnil] at hplen')
  have hpairs : overlapConditionPairs F m ≠ [] := by
    unfold overlapConditionPairs
    apply foldr_append_ne_nil
    refine ⟨p.2, List.mem_map_of_mem Prod.snd hp, ?_⟩
    intro hnil
    exact listPairs_ne_nil hp2 (List.map_eq_nil_iff.mp hnil)
  refine ⟨hmin, hpairs, ?_⟩
  have hors : emittedOrs F m ≠ [] := by
    unfold emittedOrs
    intro hnil
    exact hpairs (List.map_eq_nil_iff.mp hnil)
  unfold emittedFinalCond
  rcases hOrs : emittedOrs F m with _ | ⟨o0, _ | ⟨o1, rest⟩⟩
  · exact absurd hOrs hors
  · simp
  · simp

/-- Claim C9, witness: on the concrete promotion scenario the dependency
list has two entries and the final condition is defined. -/
theorem lclicm_guard_always_defined_witness :
    overlapConditionPairs lclicmExampleFunc lclicmExampleDeps ≠ [] ∧
    (emittedFinalCond lclicmExampleFunc lclicmExampleDeps).isSome = true := by
  have h := lclicm_guard_always_defined lclicmExampleFunc 10 [.instr 20]
    lclicmExampleStores lclicmExampleDeps (by decide) (by decide)
  exact ⟨h.2.1, h.2.2⟩

/-! ## Claim C10 — ScalarEvolution induction variable required -/

/-- Claim C10: `LoopConditionalLICMPass::isCurrentLoopACandidate` returns
false when ScalarEvolution identifies no induction variable, even for a
loop in loop-simplify form that is safe to clone, has a single exiting
block and a single exit block, and has no sub-loops. -/
theorem lclicm_requires_induction_variable (q : LoopQuery)
    (hsimp : q.isLoopSimplifyForm = true)
    (_hsafe : q.isSafeToClone = true)
    (_hexiting : q.exitingBlock.isSome = true)
    (_hexit : q.exitBlock.isSome = true)
    (_hsub : q.subLoops = [])
    (hiv : q.inductionVariable = none) :
    lclicmIsCurrentLoopACandidate q = false := by
  unfold lclicmIsCurrentLoopACandidate
  rw [hsimp, hiv]
  simp

/-- Claim C10, witness: a concrete loop query with every structural check
passing and no induction variable. -/
theorem lclicm_requires_induction_variable_witness :
    lclicmIsCurrentLoopACandidate ⟨true, none, true, some 1, some 2, []⟩
      = false :=
  lclicm_requires_induction_variable ⟨true, none, true, some 1, some 2, []⟩
    rfl rfl rfl rfl rfl rfl

end LoopDup
